import Mathlib

/-!
Verification of the RouteWise-AI deadline-aware orchestration pipeline.

This file gives a shallow embedding, in Lean 4, of the control-flow core of
the repository: the budget tracker and stage gates of
`TeamLeadTools.orchestrate_workflow` (src/agents/team_lead_agent/tools.py),
the retrieval aggregator's deduplication and file cache
(src/agents/search_agent/tools.py), the fact miner's insight normalization
(src/agents/reality_miner_agent.py), the trip classifier
(`TeamLeadTools._is_domestic_trip`), and the conversation store
(src/orchestrator/memory.py).

Modelling conventions:
- wall-clock durations and the time budget are integers (ticks); the durations of
  the external (LLM / network) calls are inputs of the model (an `Oracle`),
  since the code treats those calls as opaque blocking collaborators;
- ISO dates are modelled as integer day ordinals, so that
  `datetime.fromisoformat` differences become integer subtraction;
- the sha1 hash used for cache keys is modelled by the (injective) string
  it hashes, `provider ++ ":" ++ query`;
- Python `a in b` on strings is modelled by `strIn` (substring containment),
  and `x.lower()` by `strLower`.
-/

/-! ## String helpers: Python `in` and `.lower()` -/

/-- `chStarts needle hay` holds when `needle` is an initial segment of `hay`. -/
def chStarts : List Char → List Char → Bool
  | [], _ => true
  | _ :: _, [] => false
  | a :: xs, b :: ys => a == b && chStarts xs ys

/-- Contiguous-sublist test on character lists. -/
def charsContains : List Char → List Char → Bool
  | [], needle => chStarts needle []
  | h :: t, needle => chStarts needle (h :: t) || charsContains t needle

/-- Python's `needle in hay` on strings. -/
def strIn (needle hay : String) : Bool :=
  charsContains hay.toList needle.toList

/-- Python's `s.lower()` (list-based so that it reduces in the kernel). -/
def strLower (s : String) : String :=
  String.mk (s.toList.map Char.toLower)

/-- Drop leading whitespace from a character list. -/
def dropLeadingWS : List Char → List Char
  | [] => []
  | c :: t => if c.isWhitespace then dropLeadingWS t else c :: t

/-- Python's `s.strip()` (list-based so that it reduces in the kernel). -/
def strTrim (s : String) : String :=
  String.mk (dropLeadingWS (dropLeadingWS s.toList.reverse).reverse)

/-! ## Budget tracker

`orchestrate_workflow` (tools.py lines 296-305) defines
`remaining() = time_budget - (time.perf_counter() - start_ts)`:
a plain subtraction of the elapsed time from the configured budget. -/

/-- The `remaining()` closure of `orchestrate_workflow`: configured budget
minus elapsed seconds.  Note the source performs no clamping. -/
def remaining (budget elapsed : ℤ) : ℤ :=
  budget - elapsed

/-- The clamp applied to the configured deadline at the start of
`orchestrate_workflow`: `max(45, min(time_budget, 100))`. -/
def clampBudget (cfg : ℤ) : ℤ :=
  max 45 (min cfg 100)

/-! ## Documents and deduplication (search_agent/tools.py) -/

/-- The `SearchResult` dataclass of src/agents/search_agent/tools.py. -/
structure SearchResult where
  source : String
  title : String
  url : String
  snippet : String
  content : Option String
deriving DecidableEq, Repr

/-- The dedup-by-URL loop used both in `SearchTools.search` (lines 148-154)
and in `orchestrate_workflow` (lines 363-369): walk the list carrying the
set of seen URLs, keeping an item only when its URL is new. -/
def dedupAux (seen : List String) : List SearchResult → List SearchResult
  | [] => []
  | r :: rest =>
      if r.url ∈ seen then dedupAux seen rest
      else r :: dedupAux (r.url :: seen) rest

/-- Deduplicate a result list by URL, first occurrence winning. -/
def dedupByUrl (l : List SearchResult) : List SearchResult :=
  dedupAux [] l

/-! ## Result cache (search_agent/tools.py lines 39-67)

The file cache maps `sha1(provider ++ ":" ++ query)` to the JSON-serialized
result list.  The hash input string itself stands in for the digest, and the
JSON round-trip of the dataclass (strings and an optional string) is exact,
so the store is modelled as an association list from keys to result lists. -/

def Cache : Type := List (String × List SearchResult)

/-- `SearchTools._cache_key`: the data hashed is `provider-mode:query`. -/
def cache_key (provider query : String) : String :=
  provider ++ ":" ++ query

/-- `SearchTools._read_cache`. -/
def read_cache (c : Cache) (provider query : String) : Option (List SearchResult) :=
  (List.find? (fun kv => kv.1 == cache_key provider query) c).map (fun kv => kv.2)

/-- `SearchTools._write_cache`: overwrites the entry for the key. -/
def write_cache (c : Cache) (provider query : String) (items : List SearchResult) : Cache :=
  (cache_key provider query, items) :: c

/-- Externally visible effects of one `SearchTools.search` call. -/
inductive ProviderCall where
  | ddg
  | tavily
  | fetch (url : String)
deriving DecidableEq, Repr

/-- Result of the `SearchTools.search` embedding. -/
structure SearchOut where
  results : List SearchResult
  cache : Cache
  calls : List ProviderCall

/-- `SearchTools.search` (lines 127-163).  Cache hit returns immediately;
otherwise providers are queried (duckduckgo and/or tavily according to the
provider mode, with the tavily-unconfigured fallback), results are
deduplicated by URL, reranked (the hand-tuned scoring heuristic is a
parameter, as the spec treats its weights as tunable), and the top
`max_results` items are content-fetched and written back to the cache. -/
def search (c : Cache) (provider : String) (hasTavily : Bool) (maxResults : ℕ)
    (rerank : List SearchResult → List SearchResult)
    (fetchOne : SearchResult → SearchResult)
    (ddgRes tavRes : List SearchResult) (query : String) : SearchOut :=
  match read_cache c provider query with
  | some v => ⟨v, c, []⟩
  | none =>
      let dd := if provider == "duckduckgo" || provider == "hybrid"
                then (ddgRes, [ProviderCall.ddg]) else ([], [])
      let tv := if (provider == "tavily" || provider == "hybrid") && hasTavily
                then (tavRes, [ProviderCall.tavily])
                else if provider == "tavily" && !hasTavily
                then (ddgRes, [ProviderCall.ddg]) else ([], [])
      let deduped := dedupByUrl (dd.1 ++ tv.1)
      let top := (rerank deduped).take maxResults
      let final := top.map fetchOne
      ⟨final, write_cache c provider query final,
        dd.2 ++ tv.2 ++ top.map (fun r => ProviderCall.fetch r.url)⟩

/-! ## Insight normalization (reality_miner_agent.py lines 92-104) -/

/-- The `Insight` dataclass of src/agents/reality_miner_agent.py. -/
structure Insight where
  type : String
  summary : String
  details : Option String
  source_url : Option String
deriving DecidableEq, Repr

/-- One raw item of the JSON array parsed from the completion output;
absent object fields are `none` (Python `it.get(...)`). -/
structure RawItem where
  type : Option String
  summary : Option String
  details : Option String
  source_url : Option String
deriving DecidableEq, Repr

/-- The fixed insight taxonomy named in the `Insight` dataclass comment. -/
def insightTaxonomy : List String :=
  ["scam", "warning", "hack", "cost", "delay", "complaint", "temporal",
   "food", "accommodation", "transport_safety"]

/-- The per-item normalization of `RealityMinerAgent.extract_insights`:
`Insight(type=it.get("type", "warning"), summary=it.get("summary", ""),
details=it.get("details"), source_url=it.get("source_url"))`. -/
def normalize_insight (it : RawItem) : Insight :=
  ⟨it.type.getD "warning", it.summary.getD "", it.details, it.source_url⟩

/-- The normalization loop over all parsed raw items (lines 94-103). -/
def normalize_raw_insights (items : List RawItem) : List Insight :=
  items.map normalize_insight

/-! ## Trip classification (`TeamLeadTools._is_domestic_trip`, lines 261-290) -/

/-- Extracted trip parameters (the fields of `_extract_trip_params` output
that the pipeline reads).  ISO dates are modelled as integer day ordinals. -/
structure TripParams where
  origin_city : Option String
  destination_city : Option String
  depart_date : Option ℤ
  return_date : Option ℤ
  duration_days : Option ℤ
  is_first_time : Bool
  notes : String
deriving DecidableEq, Repr

/-- The fixed Indian place-name list of `_is_domestic_trip`. -/
def indian_places : List String :=
  ["delhi", "mumbai", "bangalore", "kolkata", "chennai", "hyderabad", "pune", "ahmedabad",
   "jaipur", "lucknow", "kanpur", "nagpur", "indore", "thane", "bhopal", "visakhapatnam",
   "patna", "vadodara", "ludhiana", "agra", "nashik", "faridabad", "meerut", "rajkot",
   "kalyan", "vasai", "varanasi", "srinagar", "aurangabad", "dhanbad", "amritsar",
   "navi mumbai", "allahabad", "howrah", "ranchi", "gwalior", "jabalpur", "coimbatore",
   "vijayawada", "jodhpur", "madurai", "raipur", "kota", "guwahati", "chandigarh",
   "solapur", "hubli", "mysore", "tiruchirappalli", "bareilly", "moradabad", "gurgaon",
   "gurugram", "noida", "ghaziabad", "aligarh", "jalandhar", "bhubaneswar", "salem",
   "warangal", "mira", "bhiwandi", "thiruvananthapuram", "bhavnagar", "dehradun", "durgapur",
   "kerala", "goa", "rajasthan", "punjab", "haryana", "uttar pradesh", "bihar", "odisha",
   "west bengal", "tamil nadu", "karnataka", "andhra pradesh", "telangana", "madhya pradesh",
   "gujarat", "maharashtra", "himachal pradesh", "uttarakhand", "jharkhand", "chhattisgarh"]

/-- The explicit-domestic phrases checked in the extracted notes. -/
def domestic_phrases : List String :=
  ["domestic", "within india", "inside india"]

/-- `TeamLeadTools._is_domestic_trip`: both the lowered origin and the
lowered destination contain an Indian place name, or the lowered notes
contain an explicit domestic phrase. -/
def is_domestic_trip (p : TripParams) : Bool :=
  let origin := strLower (p.origin_city.getD "")
  let dest := strLower (p.destination_city.getD "")
  let origin_in_india := indian_places.any (fun place => strIn place origin)
  let dest_in_india := indian_places.any (fun place => strIn place dest)
  let notes := strLower p.notes
  let explicit_domestic := domestic_phrases.any (fun phrase => strIn phrase notes)
  (origin_in_india && dest_in_india) || explicit_domestic

/-! ## Session store surface (orchestrator/memory.py) -/

/-- The methods defined on `MemoryManager` in src/orchestrator/memory.py. -/
def memoryManagerMethods : List String :=
  ["__init__", "_init_database", "create_session", "add_message",
   "get_conversation_history", "update_trip_context", "get_trip_context",
   "list_sessions", "get_context_summary", "cleanup_old_sessions"]

/-- The attribute name resolved by `memory.ensure_session_exists(...)` at
src/main.py line 95 and src/api/server.py line 52. -/
def entryPointSessionCall : String :=
  "ensure_session_exists"

/-- Python attribute resolution on a `MemoryManager` instance, restricted
to the method table: `some` when the class defines the method. -/
def lookupMemoryMethod (name : String) : Option String :=
  List.find? (fun m => m == name) memoryManagerMethods

/-! ## Conversation store (orchestrator/memory.py lines 107-163)

The `messages` table is a list of rows in insertion (rowid) order; the
`datetime.now().isoformat()` timestamps are modelled as naturals. -/

/-- One row of the `messages` table. -/
structure MsgRow where
  sid : String
  ts : ℕ
  role : String
  content : String
  mtype : String
deriving DecidableEq, Repr

/-- `ORDER BY timestamp DESC`: newer (larger) timestamps first. -/
def tsGE (a b : MsgRow) : Prop :=
  b.ts ≤ a.ts

instance : DecidableRel tsGE :=
  fun a b => inferInstanceAs (Decidable (b.ts ≤ a.ts))

instance : IsTotal MsgRow tsGE :=
  ⟨fun a b => Nat.le_total b.ts a.ts⟩

instance : IsTrans MsgRow tsGE :=
  ⟨fun _ _ _ hab hbc => le_trans hbc hab⟩

/-- `MemoryManager.add_message`: INSERT appends a row to the table. -/
def add_message (db : List MsgRow) (sid : String) (ts : ℕ)
    (role content mtype : String) : List MsgRow :=
  db ++ [⟨sid, ts, role, content, mtype⟩]

/-- `MemoryManager.get_conversation_history`: select the session's rows,
order by timestamp descending, take `limit` rows, then reverse into
chronological order. -/
def get_conversation_history (db : List MsgRow) (sid : String) (limit : ℕ) : List MsgRow :=
  (((db.filter (fun m => m.sid == sid)).insertionSort tsGE).take limit).reverse

/-! ## The orchestration pipeline (`TeamLeadTools.orchestrate_workflow`)

The pipeline is embedded as a deterministic function of the request plus an
`Oracle` giving the outcome and duration of every external call it may
issue.  The function also produces the run's `trace`: one `Event` per
costly external step actually started, recording `remaining()` at the
moment the step starts. -/

/-- The costly steps gated (or not) by the budget checks. -/
inductive StepKind where
  | searchQ (i : ℕ)
  | expand
  | followQ (i : ℕ)
  | mine
  | synth
  | flight
  | visa
  | checklist
  | budget
deriving DecidableEq, Repr

/-- A costly step together with `remaining()` at the moment it started. -/
structure Event where
  kind : StepKind
  rem : ℤ
deriving DecidableEq, Repr

/-- The budget threshold the source checks before each gated step
(35 after each search, 50 for expansion, 38 after each follow-up search,
22 for mining, 14 for synthesis, 20/18/16/18 for the agents). -/
def gateFloor : StepKind → ℤ
  | .searchQ _ => 35
  | .expand => 50
  | .followQ _ => 38
  | .mine => 22
  | .synth => 14
  | .flight => 20
  | .visa => 18
  | .checklist => 16
  | .budget => 18

/-- Outcomes and durations of the external collaborator calls of one run. -/
structure Oracle where
  extractCost : ℤ
  genCost : ℤ
  expandCost : ℤ
  mineCost : ℤ
  synthCost : ℤ
  flightCost : ℤ
  visaCost : ℤ
  checklistCost : ℤ
  budgetCost : ℤ
  searchCost : ℕ → ℤ
  followCost : ℕ → ℤ
  params : TripParams
  llmQueries : List String
  searchRes : ℕ → List SearchResult
  followupsProposed : List String
  followRes : ℕ → List SearchResult
  mineFn : List SearchResult → List Insight
  itinFn : List Insight → String
  flightText : String
  visaText : String
  checklistText : String
  budgetText : String

/-- Threaded state of one phase: elapsed clock, event trace, and payload. -/
structure PhaseOut (α : Type) where
  elapsed : ℤ
  trace : List Event
  val : α

/-- Observable outcome of `orchestrate_workflow`. -/
structure RunResult where
  final : String
  itineraryMd : String
  issued : List String
  synthGateRem : ℤ
  trace : List Event

/-- The static fallback query set of `_generate_search_queries`
(tools.py lines 112-137), parameterized only by the stripped request. -/
def fallback_queries (q : String) : List String :=
  [q,
   q ++ " reddit experiences tips",
   q ++ " site:reddit.com travel advice problems",
   q ++ " site:tripadvisor.com/ShowTopic forum issues scams",
   q ++ " site:travel.stackexchange.com safety visas transport",
   q ++ " blog personal experience what to avoid",
   q ++ " common scams to avoid taxi rickshaw overcharge",
   q ++ " safety at night solo women experiences",
   q ++ " pickpocket areas crowded warnings",
   q ++ " local transport hacks train bus metro delays",
   q ++ " bad experiences what went wrong lessons learned",
   q ++ " festival crowd traffic surge pricing",
   q ++ " airport to city transport real cost avoid scams",
   q ++ " neighborhoods to avoid where to stay reddit",
   q ++ " hostel vs hotel area to stay budget",
   q ++ " best time to visit avoid crowds heat rain",
   q ++ " food hygiene street food safety upset stomach"]

/-- `TeamLeadTools._generate_search_queries` (lines 54-145): the planner's
proposal (already parsed to a string list) if non-empty, otherwise the
static fallback set; capped at 4 in fast mode, 15 otherwise. -/
def generate_search_queries (llmQueries : List String) (query : String) (fast : Bool) : List String :=
  let q := strTrim query
  let queries := if llmQueries.isEmpty then fallback_queries q else llmQueries
  if fast then queries.take 4 else queries.take 15

/-- Trip duration derivation (lines 311-326): the extracted integer
`duration_days` if present, else `(return - depart).days + 1` when both
dates parse and the difference is non-negative. -/
def derive_duration (p : TripParams) : Option ℤ :=
  match p.duration_days with
  | some d => some d
  | none =>
      match p.depart_date, p.return_date with
      | some dep, some ret =>
          let delta := ret - dep
          if 0 ≤ delta then some (max delta 0 + 1) else none
      | _, _ => none

/-- ASCII apostrophe. -/
def apostrophe : String :=
  String.singleton (Char.ofNat 39)

/-- The fixed text of the quick inline itinerary fallback
(tools.py lines 405-411). -/
def quickPlanText : String :=
  "Quick Plan (compact):\n" ++
  "- Start with 2–3 must‑do highlights and one standout food spot.\n" ++
  "- Getting around: use metro/bus; rideshare for late nights; keep small cash.\n" ++
  "- Heads‑up: verify timings/prices on official sites; keep an eye on scams around stations.\n" ++
  "- Next steps: tell me dates, trip length, budget vibe — I’ll flesh out a day‑by‑day in seconds."

/-- The quick inline itinerary fallback used when `remaining() < 14`:
the trip header (when origin and destination were extracted) plus the
compact templated plan text asking the user for the missing details. -/
def quickFallback (p : TripParams) : String :=
  let bits :=
    if (p.origin_city.getD "" ≠ "") ∧ (p.destination_city.getD "" ≠ "") then
      ["Your Trip: " ++ p.origin_city.getD "" ++ " → " ++ p.destination_city.getD ""]
    else []
  String.intercalate "\n" bits ++ (if bits.isEmpty then "" else "\n\n") ++ quickPlanText

/-- Keywords selecting insights for the Reality Check section (line 423). -/
def realityKinds : List String :=
  ["warning", "scam", "caution", "issue", "problem", "hack", "tip", "safety"]

/-- One Reality Check bullet (lines 424-430). -/
def bulletOf (i : Insight) : String :=
  match i.source_url with
  | some u => if u ≠ "" then "- " ++ i.summary ++ " — source: " ++ u else "- " ++ i.summary
  | none => "- " ++ i.summary

/-- The Reality Check accumulation loop (lines 420-432): scan at most the
first 20 insights, keep those whose lowered kind contains a reality
keyword and whose summary is non-empty, stopping once 8 bullets exist. -/
def realityLoop : List Insight → List String → List String
  | [], acc => acc
  | i :: rest, acc =>
      let itype := strLower i.type
      let acc2 :=
        if realityKinds.any (fun k => strIn k itype) && (i.summary != "") then
          acc ++ [bulletOf i]
        else acc
      if 8 ≤ acc2.length then acc2 else realityLoop rest acc2

/-- The condensed Reality Check markdown (lines 417-436). -/
def buildRealityMd (insights : List Insight) : String :=
  let bullets := realityLoop (insights.take 20) []
  if bullets.isEmpty then "" else String.intercalate "\n" bullets

/-- The final-response header lines (lines 495-505). -/
def tripHeaderBits (p : TripParams) (isDom : Bool) : List String :=
  (if (p.origin_city.getD "" ≠ "") ∧ (p.destination_city.getD "" ≠ "") then
     ["Your Trip: " ++ p.origin_city.getD "" ++ " → " ++ p.destination_city.getD ""]
   else []) ++
  (match p.depart_date, p.return_date with
   | some dep, some ret => ["Dates: " ++ toString dep ++ " → " ++ toString ret]
   | _, _ => []) ++
  (if p.is_first_time ∧ ¬isDom then
     ["First international trip — I" ++ apostrophe ++
      "ll make it step-by-step and confidence-boosting."]
   else [])

/-- The main search loop (lines 341-347): each planned query is issued and
its results appended; after each search the loop breaks early once
`remaining() < 35`.  The budget is only consulted after a search, so the
first query of the round is issued unconditionally. -/
def searchLoop (o : Oracle) (budget : ℤ) :
    ℕ → List String → ℤ → List Event → List SearchResult → PhaseOut (List SearchResult)
  | _, [], elapsed, trace, acc => ⟨elapsed, trace, acc⟩
  | i, _ :: rest, elapsed, trace, acc =>
      let ev : Event := ⟨.searchQ i, remaining budget elapsed⟩
      let elapsed2 := elapsed + o.searchCost i
      let acc2 := acc ++ o.searchRes i
      if remaining budget elapsed2 < 35 then ⟨elapsed2, trace ++ [ev], acc2⟩
      else searchLoop o budget (i + 1) rest elapsed2 (trace ++ [ev]) acc2

/-- The follow-up search loop of the refinement pass (lines 354-359),
breaking early once `remaining() < 38`. -/
def followLoop (o : Oracle) (budget : ℤ) :
    ℕ → List String → ℤ → List Event → List SearchResult → PhaseOut (List SearchResult)
  | _, [], elapsed, trace, acc => ⟨elapsed, trace, acc⟩
  | i, _ :: rest, elapsed, trace, acc =>
      let ev : Event := ⟨.followQ i, remaining budget elapsed⟩
      let elapsed2 := elapsed + o.followCost i
      let acc2 := acc ++ o.followRes i
      if remaining budget elapsed2 < 38 then ⟨elapsed2, trace ++ [ev], acc2⟩
      else followLoop o budget (i + 1) rest elapsed2 (trace ++ [ev]) acc2

/-- The optional refinement pass (lines 348-361): only when not in fast
mode and `remaining() >= 50`; `_expand_queries_from_results` proposes
follow-ups (capped at 6) which are then searched. -/
def expansionPhase (o : Oracle) (budget : ℤ) (fast : Bool)
    (elapsed : ℤ) (trace : List Event) (results : List SearchResult) :
    PhaseOut (List SearchResult) :=
  if (!fast) && decide (50 ≤ remaining budget elapsed) then
    let ev : Event := ⟨.expand, remaining budget elapsed⟩
    followLoop o budget 0 (o.followupsProposed.take 6) (elapsed + o.expandCost)
      (trace ++ [ev]) results
  else ⟨elapsed, trace, results⟩

/-- The Fact Miner gate (lines 388-392): skip mining entirely when
`remaining() < 22`, otherwise delegate to the Reality Miner. -/
def minePhase (o : Oracle) (budget elapsed : ℤ) (trace : List Event)
    (docs : List SearchResult) : PhaseOut (List Insight) :=
  if remaining budget elapsed < 22 then ⟨elapsed, trace, []⟩
  else ⟨elapsed + o.mineCost, trace ++ [⟨.mine, remaining budget elapsed⟩], o.mineFn docs⟩

/-- The Synthesis gate (lines 400-415): when `remaining() < 14` the
narrative call is skipped and the quick inline fallback substituted;
otherwise `build_itinerary` runs. -/
def synthPhase (o : Oracle) (budget elapsed : ℤ) (trace : List Event)
    (p : TripParams) (insights : List Insight) : PhaseOut String :=
  if remaining budget elapsed < 14 then ⟨elapsed, trace, quickFallback p⟩
  else ⟨elapsed + o.synthCost, trace ++ [⟨.synth, remaining budget elapsed⟩], o.itinFn insights⟩

/-- One specialized-agent gate (lines 438-492): the agent is invoked only
when the request warrants it and `remaining()` is at least the agent's
threshold; otherwise its section stays empty. -/
def gatedAgent (k : StepKind) (thr : ℤ) (want : Bool) (cost : ℤ) (text : String)
    (budget elapsed : ℤ) (trace : List Event) : PhaseOut String :=
  if want && decide (thr ≤ remaining budget elapsed) then
    ⟨elapsed + cost, trace ++ [⟨k, remaining budget elapsed⟩], text⟩
  else ⟨elapsed, trace, ""⟩

/-- `TeamLeadTools.orchestrate_workflow` (lines 292-531): parameter
extraction, query planning, the budget-gated search / expansion / mining /
synthesis / specialized-agent stages, and final assembly. -/
def orchestrate_workflow (fast : Bool) (cfg : ℤ) (query : String) (o : Oracle) : RunResult :=
  let budget : ℤ := clampBudget cfg
  let e1 : ℤ := 0 + o.extractCost
  let params := o.params
  let isDom := is_domestic_trip params
  let durationDays := derive_duration params
  let e2 := e1 + o.genCost
  let gen := generate_search_queries o.llmQueries query fast
  let issued :=
    if fast then gen.take 2
    else if remaining budget e2 < 60 then gen.take 4
    else gen
  let ph1 := searchLoop o budget 0 issued e2 [] []
  let ph2 := expansionPhase o budget fast ph1.elapsed ph1.trace ph1.val
  let deduped := dedupByUrl ph2.val
  let docs0 := deduped.filter (fun r => (r.content.getD "" != "") || (r.snippet != ""))
  let docs1 := if fast then docs0.take 6 else docs0
  let docs2 :=
    if remaining budget ph2.elapsed < 25 then docs1.take 2
    else if remaining budget ph2.elapsed < 40 then docs1.take 4
    else docs1
  let ph3 := minePhase o budget ph2.elapsed ph2.trace docs2
  let insights := if fast then ph3.val.take 16 else ph3.val
  let synthRem := remaining budget ph3.elapsed
  let ph4 := synthPhase o budget ph3.elapsed ph3.trace params insights
  let realityMd := buildRealityMd insights
  let lq := strLower query
  let wantsFlights := ["flight", "flights", "air", "plane"].any (fun w => strIn w lq)
  let ph5 := gatedAgent .flight 20 wantsFlights o.flightCost o.flightText budget ph4.elapsed ph4.trace
  let wantsVisa := (!isDom) && (["visa", "passport", "documents", "immigration"].any (fun w => strIn w lq))
  let ph6 := gatedAgent .visa 18 wantsVisa o.visaCost o.visaText budget ph5.elapsed ph5.trace
  let wantsChecklist := params.is_first_time || (["checklist", "packing", "pack", "what to bring"].any (fun w => strIn w lq))
  let ph7 := gatedAgent .checklist 16 wantsChecklist o.checklistCost o.checklistText budget ph6.elapsed ph6.trace
  let wantsBudget :=
    (match durationDays with | some d => decide (0 < d) | none => false) ||
    (["budget", "cost", "price", "expenses", "how much", "per day", "per-day"].any (fun w => strIn w lq))
  let ph8 := gatedAgent .budget 18 wantsBudget o.budgetCost o.budgetText budget ph7.elapsed ph7.trace
  let headerBits := tripHeaderBits params isDom
  let header := String.intercalate "\n" headerBits
  let checklistTitle := if isDom then "Travel Checklist" else "Packing & First‑Time Checklist"
  let sections :=
    (if strTrim realityMd != "" then ["Reality Check (from real traveller posts)" ++ "\n" ++ realityMd] else []) ++
    (if strTrim ph5.val != "" then ["Flights" ++ "\n" ++ ph5.val] else []) ++
    (if strTrim ph6.val != "" then ["Documents & Visa" ++ "\n" ++ ph6.val] else []) ++
    (if strTrim ph7.val != "" then [checklistTitle ++ "\n" ++ ph7.val] else []) ++
    (if strTrim ph8.val != "" then ["Budget Overview" ++ "\n" ++ ph8.val] else []) ++
    (if strTrim ph4.val != "" then [ph4.val] else [])
  let final := String.intercalate "\n\n" ((if header == "" then [] else [header]) ++ sections)
  ⟨final, ph4.val, issued, synthRem, ph8.trace⟩

/-! ## Concrete runs used as test vectors -/

/-- A run in which every external call returns instantly: the planner
proposes one query and every collaborator answers in zero time. -/
def zeroOracle : Oracle where
  extractCost := 0
  genCost := 0
  expandCost := 0
  mineCost := 0
  synthCost := 0
  flightCost := 0
  visaCost := 0
  checklistCost := 0
  budgetCost := 0
  searchCost := fun _ => 0
  followCost := fun _ => 0
  params := ⟨none, none, none, none, none, false, ""⟩
  llmQueries := ["jaipur scams"]
  searchRes := fun _ => []
  followupsProposed := []
  followRes := fun _ => []
  mineFn := fun _ => []
  itinFn := fun _ => "plan"
  flightText := ""
  visaText := ""
  checklistText := ""
  budgetText := ""

/-- A run in which the two up-front LLM calls (parameter extraction and
query planning) each block for 60 seconds, exhausting a 90-second budget
before the first search is issued. -/
def slowOracle : Oracle where
  extractCost := 60
  genCost := 60
  expandCost := 0
  mineCost := 0
  synthCost := 0
  flightCost := 0
  visaCost := 0
  checklistCost := 0
  budgetCost := 0
  searchCost := fun _ => 1
  followCost := fun _ => 0
  params := ⟨some "Delhi", some "Jaipur", none, none, none, false, ""⟩
  llmQueries := ["jaipur scams"]
  searchRes := fun _ => []
  followupsProposed := []
  followRes := fun _ => []
  mineFn := fun _ => []
  itinFn := fun _ => "plan"
  flightText := ""
  visaText := ""
  checklistText := ""
  budgetText := ""

/-- A two-session message table used to exercise the conversation store. -/
def demoDb : List MsgRow :=
  [⟨"s1", 0, "user", "hi", "text"⟩,
   ⟨"s2", 1, "user", "other session", "text"⟩,
   ⟨"s1", 2, "assistant", "hello", "text"⟩]

/-- A document used as a dedup/cache test vector. -/
def docA : SearchResult :=
  ⟨"duckduckgo", "A", "http://a", "sa", none⟩

/-- A second document with the same URL as `docA`. -/
def docA2 : SearchResult :=
  ⟨"tavily", "A later", "http://a", "sa2", none⟩

/-- A document with a fresh URL. -/
def docB : SearchResult :=
  ⟨"duckduckgo", "B", "http://b", "sb", none⟩

/-! # Theorems -/

/-! ## Deduplication lemmas -/

theorem dedupAux_sublist (l : List SearchResult) :
    ∀ seen, (dedupAux seen l).Sublist l := by
  induction l with
  | nil => intro seen; simp [dedupAux]
  | cons r rest ih =>
      intro seen
      by_cases h : r.url ∈ seen
      · simp only [dedupAux, if_pos h]
        exact (ih seen).trans (List.sublist_cons_self r rest)
      · simp only [dedupAux, if_neg h]
        exact (ih (r.url :: seen)).cons₂ r

theorem mem_map_url_dedupAux (l : List SearchResult) :
    ∀ seen u, u ∈ (dedupAux seen l).map (fun r => r.url) ↔
      u ∈ l.map (fun r => r.url) ∧ u ∉ seen := by
  induction l with
  | nil => intro seen u; simp [dedupAux]
  | cons r rest ih =>
      intro seen u
      by_cases h : r.url ∈ seen
      · simp only [dedupAux, if_pos h, ih, List.map_cons, List.mem_cons]
        constructor
        · rintro ⟨hu, hs⟩; exact ⟨Or.inr hu, hs⟩
        · rintro ⟨hu | hu, hs⟩
          · exact absurd (hu ▸ h) hs
          · exact ⟨hu, hs⟩
      · simp only [dedupAux, if_neg h, List.map_cons, List.mem_cons, ih, List.mem_cons]
        constructor
        · rintro (rfl | ⟨hu, hne⟩)
          · exact ⟨Or.inl rfl, h⟩
          · exact ⟨Or.inr hu, fun hs => hne (Or.inr hs)⟩
        · rintro ⟨rfl | hu, hs⟩
          · exact Or.inl rfl
          · by_cases hru : u = r.url
            · exact Or.inl hru
            · exact Or.inr ⟨hu, fun hmem => by
                rcases hmem with h1 | h1
                · exact hru h1
                · exact hs h1⟩

theorem nodup_map_url_dedupAux (l : List SearchResult) :
    ∀ seen, ((dedupAux seen l).map (fun r => r.url)).Nodup := by
  induction l with
  | nil => intro seen; simp [dedupAux]
  | cons r rest ih =>
      intro seen
      by_cases h : r.url ∈ seen
      · simpa only [dedupAux, if_pos h] using ih seen
      · simp only [dedupAux, if_neg h, List.map_cons, List.nodup_cons]
        refine ⟨fun hmem => ?_, ih (r.url :: seen)⟩
        exact ((mem_map_url_dedupAux rest (r.url :: seen) r.url).mp hmem).2 (List.mem_cons_self _ _)

theorem dedupAux_first_occurrence (l : List SearchResult) :
    ∀ seen r, r ∈ dedupAux seen l →
      r.url ∉ seen ∧ l.find? (fun x => x.url == r.url) = some r := by
  induction l with
  | nil => intro seen r h; simp [dedupAux] at h
  | cons r0 rest ih =>
      intro seen r h
      by_cases h0 : r0.url ∈ seen
      · rw [dedupAux, if_pos h0] at h
        obtain ⟨hns, hfind⟩ := ih seen r h
        have hne : (r0.url == r.url) = false := by
          apply beq_false_of_ne
          intro he
          exact hns (he ▸ h0)
        rw [List.find?_cons_of_neg _ (by simp [hne]), hfind]
        exact ⟨hns, rfl⟩
      · rw [dedupAux, if_neg h0] at h
        rcases List.mem_cons.mp h with rfl | h
        · refine ⟨h0, ?_⟩
          rw [List.find?_cons_of_pos _ (by simp)]
        · obtain ⟨hns, hfind⟩ := ih (r0.url :: seen) r h
          have hne : (r0.url == r.url) = false := by
            apply beq_false_of_ne
            intro he
            exact hns (he ▸ List.mem_cons_self _ _)
          refine ⟨fun hs => hns (List.mem_cons_of_mem _ hs), ?_⟩
          rw [List.find?_cons_of_neg _ (by simp [hne]), hfind]

/-- Claim C3: for any input list of Documents with repeated identities
(URLs), the aggregator's dedup output is an in-order sublist of the input,
contains each input URL exactly once, and keeps for each URL exactly the
first document carrying it (first occurrence wins). -/
theorem retrieval_dedup_first_seen (l : List SearchResult) :
    (dedupByUrl l).Sublist l ∧
    ((dedupByUrl l).map (fun r => r.url)).Nodup ∧
    (∀ u, u ∈ (dedupByUrl l).map (fun r => r.url) ↔ u ∈ l.map (fun r => r.url)) ∧
    (∀ r ∈ dedupByUrl l, l.find? (fun x => x.url == r.url) = some r) := by
  refine ⟨dedupAux_sublist l [], nodup_map_url_dedupAux l [], fun u => ?_, fun r hr => ?_⟩
  · rw [dedupByUrl, mem_map_url_dedupAux]
    simp
  · exact (dedupAux_first_occurrence l [] r hr).2

/-- Witness for C3 on a concrete duplicated list: the survivor for URL
`http://a` is the first of the two documents carrying it. -/
theorem retrieval_dedup_first_seen_witness :
    [docA, docB, docA2].find? (fun x => x.url == docA.url) = some docA :=
  (retrieval_dedup_first_seen [docA, docB, docA2]).2.2.2 docA (by decide)

/-! ## Budget tracker (C2) -/

/-- Counterexample to claim C2 as stated: with a 90-second deadline and
100 seconds elapsed, `remaining()` returns -10, a negative value, rather
than the claimed non-negative clamp `max 0 (deadline - elapsed) = 0`. -/
theorem remaining_clamped_cex :
    remaining 90 100 = -10 ∧ ¬(0 ≤ remaining 90 100) ∧ remaining 90 100 ≠ max (90 - 100) 0 := by
  refine ⟨?_, ?_, ?_⟩ <;> norm_num [remaining]

/-- Claim C2, amended: `remaining()` returns exactly deadline minus
elapsed, with no clamping — non-negative when the elapsed time has not
passed the deadline, and strictly negative once it has; it is a pure
function of the two readings. -/
theorem remaining_unclamped (b e : ℤ) :
    remaining b e = b - e ∧ (e ≤ b → 0 ≤ remaining b e) ∧ (b < e → remaining b e < 0) := by
  refine ⟨rfl, fun h => ?_, fun h => ?_⟩
  · simpa [remaining] using h
  · simpa [remaining] using h

/-- Witness for C2 at deadline 90, elapsed 30. -/
theorem remaining_unclamped_witness :
    remaining 90 30 = 90 - 30 ∧ 0 ≤ remaining 90 30 :=
  ⟨(remaining_unclamped 90 30).1, (remaining_unclamped 90 30).2.1 (by norm_num)⟩

/-! ## Cache round-trip and cache-hit short circuit (C5) -/

/-- Claim C5: writing a result list under a query's key and immediately
reading the same query back returns the same list; and whenever `search`
finds a cached entry it returns it directly, leaving the cache unchanged
and issuing no provider or fetch call. -/
theorem cache_round_trip_and_hit :
    (∀ (c : Cache) (p q : String) (items : List SearchResult),
        read_cache (write_cache c p q items) p q = some items) ∧
    (∀ (c : Cache) (p : String) (hasTavily : Bool) (maxResults : ℕ)
        (rerank : List SearchResult → List SearchResult)
        (fetchOne : SearchResult → SearchResult)
        (ddgRes tavRes : List SearchResult) (q : String) (v : List SearchResult),
        read_cache c p q = some v →
        search c p hasTavily maxResults rerank fetchOne ddgRes tavRes q = ⟨v, c, []⟩) := by
  constructor
  · intro c p q items
    simp [read_cache, write_cache, List.find?]
  · intro c p hasTavily maxResults rerank fetchOne ddgRes tavRes q v h
    simp only [search, h]

/-- Witness for C5: a concrete write-then-search round trip that returns
the written list with an empty provider-call log. -/
theorem cache_round_trip_and_hit_witness :
    search (write_cache [] "hybrid" "goa" [docA]) "hybrid" false 5 id id [] [] "goa" =
      ⟨[docA], write_cache [] "hybrid" "goa" [docA], []⟩ :=
  cache_round_trip_and_hit.2 (write_cache [] "hybrid" "goa" [docA]) "hybrid" false 5 id id [] [] "goa"
    [docA] (cache_round_trip_and_hit.1 [] "hybrid" "goa" [docA])

/-! ## Trip classification (C6) -/

/-- Claim C6: trip classification is a pure function of the extracted
origin/destination strings and notes; Mumbai→Jaipur is domestic,
London→Jaipur is international, and whenever origin or destination matches
no entry of the fixed Indian place-name list and the notes contain no
explicit domestic phrase, the result is international (`false`). -/
theorem trip_classification :
    is_domestic_trip ⟨some "Mumbai", some "Jaipur", none, none, none, false, ""⟩ = true ∧
    is_domestic_trip ⟨some "London", some "Jaipur", none, none, none, false, ""⟩ = false ∧
    ∀ p : TripParams,
      (indian_places.any (fun place => strIn place (strLower (p.origin_city.getD ""))) = false ∨
       indian_places.any (fun place => strIn place (strLower (p.destination_city.getD ""))) = false) →
      domestic_phrases.any (fun phrase => strIn phrase (strLower p.notes)) = false →
      is_domestic_trip p = false := by
  refine ⟨by decide, by decide, fun p hmatch hnotes => ?_⟩
  rw [is_domestic_trip]
  rcases hmatch with h | h <;> simp [h, hnotes]

/-- Witness for C6's universal part: London→Paris with no domestic phrase
in the notes classifies international. -/
theorem trip_classification_witness :
    is_domestic_trip ⟨some "London", some "Paris", none, none, none, false, "hello"⟩ = false :=
  trip_classification.2.2 ⟨some "London", some "Paris", none, none, none, false, "hello"⟩
    (by decide) (by decide)

/-! ## Insight normalization (C8) -/

/-- Counterexample to claim C8 as stated: a raw item whose kind field is
present but not in the fixed taxonomy (here `"rumor"`) is NOT coerced to
`"warning"`; its kind survives normalization verbatim and lies outside the
taxonomy. -/
theorem insight_kind_normalization_cex :
    (normalize_insight ⟨some "rumor", some "crowded at dawn", none, none⟩).type = "rumor" ∧
    "rumor" ∉ insightTaxonomy ∧
    (normalize_raw_insights [⟨some "rumor", some "crowded at dawn", none, none⟩]).length = 1 := by
  refine ⟨rfl, by decide, rfl⟩

/-- Claim C8, amended: normalization produces exactly one Insight per raw
item (none is rejected); an item whose kind field is MISSING is assigned
the generic kind `"warning"`, but an item whose kind is present is kept
verbatim even when it is not a taxonomy kind, so normalized kinds need not
lie in the fixed taxonomy. -/
theorem insight_kind_normalization (items : List RawItem) :
    (normalize_raw_insights items).length = items.length ∧
    ∀ it ∈ items,
      (it.type = none → (normalize_insight it).type = "warning") ∧
      (∀ s, it.type = some s → (normalize_insight it).type = s) := by
  refine ⟨List.length_map items normalize_insight, fun it _ => ⟨fun h => ?_, fun s h => ?_⟩⟩
  · simp [normalize_insight, h]
  · simp [normalize_insight, h]

/-- Witness for C8: a kind-less raw item normalizes to the `"warning"`
kind and contributes exactly one Insight. -/
theorem insight_kind_normalization_witness :
    (normalize_raw_insights [⟨none, some "x", none, none⟩]).length = 1 ∧
    (normalize_insight ⟨none, some "x", none, none⟩).type = "warning" :=
  ⟨(insight_kind_normalization [⟨none, some "x", none, none⟩]).1,
   ((insight_kind_normalization [⟨none, some "x", none, none⟩]).2
      ⟨none, some "x", none, none⟩ (by decide)).1 rfl⟩

/-! ## Session store surface (C9) -/

/-- Claim C9 (code bug): the CLI and HTTP entry points call
`memory.ensure_session_exists(...)`, but `MemoryManager` defines no method
of that name — attribute resolution fails (an `AttributeError` at run
time), while ordinary methods such as `create_session` do resolve. -/
theorem ensure_session_exists_missing :
    lookupMemoryMethod entryPointSessionCall = none ∧
    entryPointSessionCall ∉ memoryManagerMethods ∧
    lookupMemoryMethod "create_session" = some "create_session" := by
  refine ⟨by decide, by decide, by decide⟩

/-! ## Orchestration trace lemmas -/

theorem searchLoop_trace_mem (o : Oracle) (budget : ℤ) (qs : List String) :
    ∀ (i : ℕ) (elapsed : ℤ) (trace : List Event) (acc : List SearchResult) (ev : Event),
      ev ∈ (searchLoop o budget i qs elapsed trace acc).trace →
      ev ∈ trace ∨ (ev.kind = .searchQ i ∧ ev.rem = remaining budget elapsed) ∨
        (∃ j, i < j ∧ ev.kind = .searchQ j ∧ 35 ≤ ev.rem) := by
  induction qs with
  | nil =>
      intro i elapsed trace acc ev h
      simp only [searchLoop] at h
      exact Or.inl h
  | cons q rest ih =>
      intro i elapsed trace acc ev h
      by_cases hc : remaining budget (elapsed + o.searchCost i) < 35
      · simp only [searchLoop, if_pos hc] at h
        rcases List.mem_append.mp h with h | h
        · exact Or.inl h
        · rcases List.mem_singleton.mp h with rfl
          exact Or.inr (Or.inl ⟨rfl, rfl⟩)
      · simp only [searchLoop, if_neg hc] at h
        rcases ih (i + 1) (elapsed + o.searchCost i) _ _ ev h with h | ⟨hk, hr⟩ | ⟨j, hij, hk, hb⟩
        · rcases List.mem_append.mp h with h | h
          · exact Or.inl h
          · rcases List.mem_singleton.mp h with rfl
            exact Or.inr (Or.inl ⟨rfl, rfl⟩)
        · refine Or.inr (Or.inr ⟨i + 1, Nat.lt_succ_self i, hk, ?_⟩)
          rw [hr]
          exact le_of_not_lt hc
        · exact Or.inr (Or.inr ⟨j, Nat.lt_of_succ_lt hij, hk, hb⟩)

theorem followLoop_trace_mem (o : Oracle) (budget : ℤ) (qs : List String) :
    ∀ (i : ℕ) (elapsed : ℤ) (trace : List Event) (acc : List SearchResult) (ev : Event),
      ev ∈ (followLoop o budget i qs elapsed trace acc).trace →
      ev ∈ trace ∨ (ev.kind = .followQ i ∧ ev.rem = remaining budget elapsed) ∨
        (∃ j, i < j ∧ ev.kind = .followQ j ∧ 38 ≤ ev.rem) := by
  induction qs with
  | nil =>
      intro i elapsed trace acc ev h
      simp only [followLoop] at h
      exact Or.inl h
  | cons q rest ih =>
      intro i elapsed trace acc ev h
      by_cases hc : remaining budget (elapsed + o.followCost i) < 38
      · simp only [followLoop, if_pos hc] at h
        rcases List.mem_append.mp h with h | h
        · exact Or.inl h
        · rcases List.mem_singleton.mp h with rfl
          exact Or.inr (Or.inl ⟨rfl, rfl⟩)
      · simp only [followLoop, if_neg hc] at h
        rcases ih (i + 1) (elapsed + o.followCost i) _ _ ev h with h | ⟨hk, hr⟩ | ⟨j, hij, hk, hb⟩
        · rcases List.mem_append.mp h with h | h
          · exact Or.inl h
          · rcases List.mem_singleton.mp h with rfl
            exact Or.inr (Or.inl ⟨rfl, rfl⟩)
        · refine Or.inr (Or.inr ⟨i + 1, Nat.lt_succ_self i, hk, ?_⟩)
          rw [hr]
          exact le_of_not_lt hc
        · exact Or.inr (Or.inr ⟨j, Nat.lt_of_succ_lt hij, hk, hb⟩)

theorem expansionPhase_trace_mem (o : Oracle) (budget : ℤ) (fast : Bool)
    (elapsed : ℤ) (trace : List Event) (results : List SearchResult) (ev : Event)
    (h : ev ∈ (expansionPhase o budget fast elapsed trace results).trace) :
    ev ∈ trace ∨ (ev.kind = .expand ∧ 50 ≤ ev.rem) ∨ ev.kind = .followQ 0 ∨
      (∃ j, ev.kind = .followQ j ∧ 38 ≤ ev.rem) := by
  by_cases hc : ((!fast) && decide (50 ≤ remaining budget elapsed)) = true
  · simp only [expansionPhase, if_pos hc] at h
    have h50 : 50 ≤ remaining budget elapsed := by
      have := (Bool.and_eq_true _ _).mp hc
      exact of_decide_eq_true this.2
    rcases followLoop_trace_mem o budget _ 0 _ _ _ ev h with h | ⟨hk, _⟩ | ⟨j, _, hk, hb⟩
    · rcases List.mem_append.mp h with h | h
      · exact Or.inl h
      · rcases List.mem_singleton.mp h with rfl
        exact Or.inr (Or.inl ⟨rfl, h50⟩)
    · exact Or.inr (Or.inr (Or.inl hk))
    · exact Or.inr (Or.inr (Or.inr ⟨j, hk, hb⟩))
  · simp only [expansionPhase, if_neg hc] at h
    exact Or.inl h

theorem minePhase_trace_mem (o : Oracle) (budget elapsed : ℤ) (trace : List Event)
    (docs : List SearchResult) (ev : Event)
    (h : ev ∈ (minePhase o budget elapsed trace docs).trace) :
    ev ∈ trace ∨ (ev.kind = .mine ∧ 22 ≤ ev.rem) := by
  by_cases hc : remaining budget elapsed < 22
  · simp only [minePhase, if_pos hc] at h
    exact Or.inl h
  · simp only [minePhase, if_neg hc] at h
    rcases List.mem_append.mp h with h | h
    · exact Or.inl h
    · rcases List.mem_singleton.mp h with rfl
      exact Or.inr ⟨rfl, le_of_not_lt hc⟩

theorem synthPhase_trace_mem (o : Oracle) (budget elapsed : ℤ) (trace : List Event)
    (p : TripParams) (insights : List Insight) (ev : Event)
    (h : ev ∈ (synthPhase o budget elapsed trace p insights).trace) :
    ev ∈ trace ∨ (ev.kind = .synth ∧ 14 ≤ ev.rem ∧ ev.rem = remaining budget elapsed) := by
  by_cases hc : remaining budget elapsed < 14
  · simp only [synthPhase, if_pos hc] at h
    exact Or.inl h
  · simp only [synthPhase, if_neg hc] at h
    rcases List.mem_append.mp h with h | h
    · exact Or.inl h
    · rcases List.mem_singleton.mp h with rfl
      exact Or.inr ⟨rfl, le_of_not_lt hc, rfl⟩

theorem synthPhase_skip (o : Oracle) (budget elapsed : ℤ) (trace : List Event)
    (p : TripParams) (insights : List Insight)
    (h : remaining budget elapsed < 14) :
    synthPhase o budget elapsed trace p insights = ⟨elapsed, trace, quickFallback p⟩ := by
  simp only [synthPhase, if_pos h]

theorem gatedAgent_trace_mem (k : StepKind) (thr : ℤ) (want : Bool) (cost : ℤ)
    (text : String) (budget elapsed : ℤ) (trace : List Event) (ev : Event)
    (h : ev ∈ (gatedAgent k thr want cost text budget elapsed trace).trace) :
    ev ∈ trace ∨ (ev.kind = k ∧ thr ≤ ev.rem) := by
  by_cases hc : (want && decide (thr ≤ remaining budget elapsed)) = true
  · simp only [gatedAgent, if_pos hc] at h
    have hthr : thr ≤ remaining budget elapsed :=
      of_decide_eq_true ((Bool.and_eq_true _ _).mp hc).2
    rcases List.mem_append.mp h with h | h
    · exact Or.inl h
    · rcases List.mem_singleton.mp h with rfl
      exact Or.inr ⟨rfl, hthr⟩
  · simp only [gatedAgent, if_neg hc] at h
    exact Or.inl h

theorem orchestrate_trace_cases (fast : Bool) (cfg : ℤ) (q : String) (o : Oracle) (ev : Event)
    (h : ev ∈ (orchestrate_workflow fast cfg q o).trace) :
    ev.kind = .searchQ 0 ∨ ev.kind = .followQ 0 ∨
    (∃ j, ev.kind = .searchQ j ∧ 35 ≤ ev.rem) ∨
    (∃ j, ev.kind = .followQ j ∧ 38 ≤ ev.rem) ∨
    (ev.kind = .expand ∧ 50 ≤ ev.rem) ∨
    (ev.kind = .mine ∧ 22 ≤ ev.rem) ∨
    (ev.kind = .synth ∧ 14 ≤ ev.rem ∧
      ev.rem = (orchestrate_workflow fast cfg q o).synthGateRem) ∨
    (ev.kind = .flight ∧ 20 ≤ ev.rem) ∨
    (ev.kind = .visa ∧ 18 ≤ ev.rem) ∨
    (ev.kind = .checklist ∧ 16 ≤ ev.rem) ∨
    (ev.kind = .budget ∧ 18 ≤ ev.rem) := by
  simp only [orchestrate_workflow] at h ⊢
  rcases gatedAgent_trace_mem _ _ _ _ _ _ _ _ _ h with h | ⟨hk, hb⟩
  · rcases gatedAgent_trace_mem _ _ _ _ _ _ _ _ _ h with h | ⟨hk, hb⟩
    · rcases gatedAgent_trace_mem _ _ _ _ _ _ _ _ _ h with h | ⟨hk, hb⟩
      · rcases gatedAgent_trace_mem _ _ _ _ _ _ _ _ _ h with h | ⟨hk, hb⟩
        · rcases synthPhase_trace_mem _ _ _ _ _ _ _ h with h | ⟨hk, hb, hr⟩
          · rcases minePhase_trace_mem _ _ _ _ _ _ h with h | ⟨hk, hb⟩
            · rcases expansionPhase_trace_mem _ _ _ _ _ _ _ h with h | ⟨hk, hb⟩ | hk | ⟨j, hk, hb⟩
              · rcases searchLoop_trace_mem _ _ _ _ _ _ _ _ h with h | ⟨hk, _⟩ | ⟨j, _, hk, hb⟩
                · simp at h
                · exact Or.inl hk
                · exact Or.inr (Or.inr (Or.inl ⟨j, hk, hb⟩))
              · exact Or.inr (Or.inr (Or.inr (Or.inr (Or.inl ⟨hk, hb⟩))))
              · exact Or.inr (Or.inl hk)
              · exact Or.inr (Or.inr (Or.inr (Or.inl ⟨j, hk, hb⟩)))
            · exact Or.inr (Or.inr (Or.inr (Or.inr (Or.inr (Or.inl ⟨hk, hb⟩)))))
          · exact Or.inr (Or.inr (Or.inr (Or.inr (Or.inr (Or.inr (Or.inl ⟨hk, hb, hr⟩))))))
        · exact Or.inr (Or.inr (Or.inr (Or.inr (Or.inr (Or.inr (Or.inr (Or.inl ⟨hk, hb⟩)))))))
      · exact Or.inr (Or.inr (Or.inr (Or.inr (Or.inr (Or.inr (Or.inr (Or.inr (Or.inl ⟨hk, hb⟩))))))))
    · exact Or.inr (Or.inr (Or.inr (Or.inr (Or.inr (Or.inr (Or.inr (Or.inr (Or.inr (Or.inl ⟨hk, hb⟩)))))))))
  · exact Or.inr (Or.inr (Or.inr (Or.inr (Or.inr (Or.inr (Or.inr (Or.inr (Or.inr (Or.inr ⟨hk, hb⟩)))))))))

theorem orchestrate_synth_skip (fast : Bool) (cfg : ℤ) (q : String) (o : Oracle)
    (h : (orchestrate_workflow fast cfg q o).synthGateRem < 14) :
    (orchestrate_workflow fast cfg q o).itineraryMd = quickFallback o.params := by
  simp only [orchestrate_workflow] at h ⊢
  rw [synthPhase_skip _ _ _ _ _ _ h]

/-- Claim C1, amended: every costly step that `orchestrate_workflow`
starts is budget-gated except the first search query of a round.  Each
event of a run's trace either started with `remaining()` at or above the
gate threshold of its kind, or is the first search of the main round or of
the follow-up round — those two are issued without a prior budget check;
consequently a costly step can only start with `remaining() <= 0` when it
is the first search of a round.  (The run always returns an answer, as
`orchestrate_workflow` is a total function.) -/
theorem orchestrate_budget_gates (fast : Bool) (cfg : ℤ) (q : String) (o : Oracle) (ev : Event)
    (h : ev ∈ (orchestrate_workflow fast cfg q o).trace) :
    (gateFloor ev.kind ≤ ev.rem ∨ ev.kind = .searchQ 0 ∨ ev.kind = .followQ 0) ∧
    (ev.rem ≤ 0 → ev.kind = .searchQ 0 ∨ ev.kind = .followQ 0) := by
  rcases orchestrate_trace_cases fast cfg q o ev h with
    hk | hk | ⟨j, hk, hb⟩ | ⟨j, hk, hb⟩ | ⟨hk, hb⟩ | ⟨hk, hb⟩ | ⟨hk, hb, _⟩ | ⟨hk, hb⟩ |
    ⟨hk, hb⟩ | ⟨hk, hb⟩ | ⟨hk, hb⟩
  · exact ⟨Or.inr (Or.inl hk), fun _ => Or.inl hk⟩
  · exact ⟨Or.inr (Or.inr hk), fun _ => Or.inr hk⟩
  · exact ⟨Or.inl (by rw [hk]; exact hb), fun h0 => absurd (le_trans hb h0) (by norm_num)⟩
  · exact ⟨Or.inl (by rw [hk]; exact hb), fun h0 => absurd (le_trans hb h0) (by norm_num)⟩
  · exact ⟨Or.inl (by rw [hk]; exact hb), fun h0 => absurd (le_trans hb h0) (by norm_num)⟩
  · exact ⟨Or.inl (by rw [hk]; exact hb), fun h0 => absurd (le_trans hb h0) (by norm_num)⟩
  · exact ⟨Or.inl (by rw [hk]; exact hb), fun h0 => absurd (le_trans hb h0) (by norm_num)⟩
  · exact ⟨Or.inl (by rw [hk]; exact hb), fun h0 => absurd (le_trans hb h0) (by norm_num)⟩
  · exact ⟨Or.inl (by rw [hk]; exact hb), fun h0 => absurd (le_trans hb h0) (by norm_num)⟩
  · exact ⟨Or.inl (by rw [hk]; exact hb), fun h0 => absurd (le_trans hb h0) (by norm_num)⟩
  · exact ⟨Or.inl (by rw [hk]; exact hb), fun h0 => absurd (le_trans hb h0) (by norm_num)⟩

/-- Counterexample to claim C1 as stated: when the two up-front LLM calls
consume 120 of the 90-second budget, the first search query is still
issued, i.e. a costly step starts at `remaining() = -30 <= 0` instead of
being skipped or replaced by a fallback. -/
theorem orchestrate_budget_gates_cex :
    (⟨.searchQ 0, -30⟩ : Event) ∈ (orchestrate_workflow false 90 "goa trip" slowOracle).trace ∧
    ((-30 : ℤ) ≤ 0) := by
  constructor
  · decide
  · decide

/-- Witness for C1's amended theorem on a concrete instant-collaborator
run whose first trace event is the opening search at `remaining() = 90`. -/
theorem orchestrate_budget_gates_witness :
    (gateFloor (StepKind.searchQ 0) ≤ (90 : ℤ) ∨ StepKind.searchQ 0 = StepKind.searchQ 0 ∨
      StepKind.searchQ 0 = StepKind.followQ 0) ∧
    ((90 : ℤ) ≤ 0 → StepKind.searchQ 0 = StepKind.searchQ 0 ∨
      StepKind.searchQ 0 = StepKind.followQ 0) :=
  orchestrate_budget_gates false 90 "goa trip" zeroOracle ⟨.searchQ 0, 90⟩ (by decide)

/-- Claim C4: in every run where `remaining()` is below the last-resort
floor of 14 when the Synthesis stage is reached, the `build_itinerary`
narrative call is never started (no `synth` event occurs in the trace) and
the itinerary section of the output is exactly the compact templated
fallback assembled from the extracted header facts plus the prompt for
missing details (`quickFallback`). -/
theorem synthesis_fallback_below_floor (fast : Bool) (cfg : ℤ) (q : String) (o : Oracle)
    (h : (orchestrate_workflow fast cfg q o).synthGateRem < 14) :
    (orchestrate_workflow fast cfg q o).itineraryMd = quickFallback o.params ∧
    ∀ ev ∈ (orchestrate_workflow fast cfg q o).trace, ev.kind ≠ StepKind.synth := by
  refine ⟨orchestrate_synth_skip fast cfg q o h, fun ev hev hsynth => ?_⟩
  rcases orchestrate_trace_cases fast cfg q o ev hev with
    hk | hk | ⟨j, hk, _⟩ | ⟨j, hk, _⟩ | ⟨hk, _⟩ | ⟨hk, _⟩ | ⟨_, hb14, hr⟩ | ⟨hk, _⟩ |
    ⟨hk, _⟩ | ⟨hk, _⟩ | ⟨hk, _⟩
  · simp [hsynth] at hk
  · simp [hsynth] at hk
  · simp [hsynth] at hk
  · simp [hsynth] at hk
  · simp [hsynth] at hk
  · simp [hsynth] at hk
  · exact absurd (hr ▸ hb14) (not_le.mpr h)
  · simp [hsynth] at hk
  · simp [hsynth] at hk
  · simp [hsynth] at hk
  · simp [hsynth] at hk

/-- Witness for C4: a concrete run that reaches the Synthesis gate with
`remaining() = -31 < 14` returns the templated fallback and never starts
the narrative call. -/
theorem synthesis_fallback_below_floor_witness :
    (orchestrate_workflow false 90 "goa trip" slowOracle).itineraryMd =
      quickFallback slowOracle.params ∧
    ∀ ev ∈ (orchestrate_workflow false 90 "goa trip" slowOracle).trace,
      ev.kind ≠ StepKind.synth :=
  synthesis_fallback_below_floor false 90 "goa trip" slowOracle (by decide)

/-- Claim C7: with fast mode enabled, `_generate_search_queries` returns
at most 4 queries no matter how many the planning source proposed, and
`orchestrate_workflow` further truncates the list it issues to at most 2
queries. -/
theorem fast_mode_query_caps :
    (∀ (llm : List String) (q : String), (generate_search_queries llm q true).length ≤ 4) ∧
    (∀ (cfg : ℤ) (q : String) (o : Oracle), (orchestrate_workflow true cfg q o).issued.length ≤ 2) := by
  constructor
  · intro llm q
    simp only [generate_search_queries, if_true]
    split <;> exact List.length_take_le _ _
  · intro cfg q o
    simp only [orchestrate_workflow, if_true]
    exact List.length_take_le _ _

/-- Claim C10: `get_conversation_history` returns at most `limit` rows, all
of them rows of the requested session, in chronological (timestamp
ascending) order; the rows returned are the latest ones — any session row
left out has a timestamp no later than every returned row; and a message
just appended by `add_message` with a fresh latest timestamp appears as
the last element of an immediately following large-enough read. -/
theorem conversation_history_spec :
    (∀ (db : List MsgRow) (sid : String) (L : ℕ),
      (get_conversation_history db sid L).length ≤ L ∧
      (∀ m ∈ get_conversation_history db sid L, m.sid = sid) ∧
      List.Sorted (fun a b => a.ts ≤ b.ts) (get_conversation_history db sid L) ∧
      (∀ x ∈ db.filter (fun m => m.sid == sid), x ∉ get_conversation_history db sid L →
        ∀ y ∈ get_conversation_history db sid L, x.ts ≤ y.ts)) ∧
    (∀ (db : List MsgRow) (sid : String) (L : ℕ) (ts : ℕ) (role content mtype : String),
      (∀ m ∈ db, m.sid = sid → m.ts < ts) →
      (db.filter (fun m => m.sid == sid)).length < L →
      (get_conversation_history (add_message db sid ts role content mtype) sid L).getLast? =
        some ⟨sid, ts, role, content, mtype⟩) := by
  constructor
  · intro db sid L
    have hsorted : List.Sorted tsGE ((db.filter (fun m => m.sid == sid)).insertionSort tsGE) :=
      List.sorted_insertionSort tsGE _
    have hperm : ((db.filter (fun m => m.sid == sid)).insertionSort tsGE).Perm
        (db.filter (fun m => m.sid == sid)) := List.perm_insertionSort tsGE _
    refine ⟨?_, ?_, ?_, ?_⟩
    · rw [get_conversation_history, List.length_reverse]
      exact List.length_take_le _ _
    · intro m hm
      rw [get_conversation_history, List.mem_reverse] at hm
      have hmS := (List.take_sublist _ _).mem hm
      have hmF := hperm.mem_iff.mp hmS
      exact eq_of_beq (List.mem_filter.mp hmF).2
    · rw [get_conversation_history]
      exact List.pairwise_reverse.mpr (List.Pairwise.sublist (List.take_sublist _ _) hsorted)
    · intro x hxF hxnot y hy
      rw [get_conversation_history, List.mem_reverse] at hxnot hy
      have hxS : x ∈ (db.filter (fun m => m.sid == sid)).insertionSort tsGE :=
        hperm.symm.subset hxF
      have hpw : List.Pairwise tsGE
          ((((db.filter (fun m => m.sid == sid)).insertionSort tsGE).take L) ++
            (((db.filter (fun m => m.sid == sid)).insertionSort tsGE).drop L)) := by
        rw [List.take_append_drop]
        exact hsorted
      have hcross := (List.pairwise_append.mp hpw).2.2
      have hxdrop : x ∈ ((db.filter (fun m => m.sid == sid)).insertionSort tsGE).drop L := by
        have hx2 := hxS
        rw [← List.take_append_drop L ((db.filter (fun m => m.sid == sid)).insertionSort tsGE)]
          at hx2
        rcases List.mem_append.mp hx2 with h | h
        · exact absurd h hxnot
        · exact h
      exact hcross y hy x hxdrop
  · intro db sid L ts role content mtype hts hlen
    set newR : MsgRow := ⟨sid, ts, role, content, mtype⟩ with hnewR
    have hfilter : (add_message db sid ts role content mtype).filter (fun m => m.sid == sid)
        = db.filter (fun m => m.sid == sid) ++ [newR] := by
      simp [add_message, hnewR]
    have hsorted : List.Sorted tsGE
        (((db.filter (fun m => m.sid == sid)) ++ [newR]).insertionSort tsGE) :=
      List.sorted_insertionSort tsGE _
    have hperm :
        (((db.filter (fun m => m.sid == sid)) ++ [newR]).insertionSort tsGE).Perm
          ((db.filter (fun m => m.sid == sid)) ++ [newR]) :=
      List.perm_insertionSort tsGE _
    have hmem : newR ∈ ((db.filter (fun m => m.sid == sid)) ++ [newR]).insertionSort tsGE :=
      hperm.mem_iff.mpr (by simp)
    have hFts : ∀ m ∈ db.filter (fun m => m.sid == sid), m.ts < ts := fun m hm =>
      hts m (List.mem_filter.mp hm).1 (eq_of_beq (List.mem_filter.mp hm).2)
    obtain ⟨a, t, hat⟩ : ∃ a t,
        ((db.filter (fun m => m.sid == sid)) ++ [newR]).insertionSort tsGE = a :: t := by
      cases hSc : ((db.filter (fun m => m.sid == sid)) ++ [newR]).insertionSort tsGE with
      | nil => rw [hSc] at hmem; simp at hmem
      | cons a t => exact ⟨a, t, rfl⟩
    have hhead : a = newR := by
      by_contra hne
      have haS : a ∈ ((db.filter (fun m => m.sid == sid)) ++ [newR]).insertionSort tsGE := by
        rw [hat]; exact List.mem_cons_self _ _
      have haF : a ∈ db.filter (fun m => m.sid == sid) := by
        rcases List.mem_append.mp (hperm.subset haS) with h | h
        · exact h
        · exact absurd (List.mem_singleton.mp h) hne
      have hlt : a.ts < ts := hFts a haF
      have hnewt : newR ∈ t := by
        rw [hat] at hmem
        rcases List.mem_cons.mp hmem with h | h
        · exact absurd h.symm hne
        · exact h
      have hge : tsGE a newR := by
        rw [hat] at hsorted
        exact (List.sorted_cons.mp hsorted).1 _ hnewt
      exact absurd hge (not_le.mpr hlt)
    have hpos : 0 < L := lt_of_le_of_lt (Nat.zero_le _) hlen
    obtain ⟨n, rfl⟩ : ∃ n, L = n + 1 :=
      ⟨L - 1, (Nat.succ_pred_eq_of_pos hpos).symm⟩
    rw [get_conversation_history, hfilter, hat, List.take_succ_cons, List.reverse_cons,
      List.getLast?_concat, hhead]

/-- Witness for C10 on a concrete two-session table: the read respects its
limit and a freshly appended message is the last row of the next read. -/
theorem conversation_history_spec_witness :
    (get_conversation_history demoDb "s1" 50).length ≤ 50 ∧
    (get_conversation_history (add_message demoDb "s1" 5 "user" "new" "text") "s1" 50).getLast? =
      some ⟨"s1", 5, "user", "new", "text"⟩ :=
  ⟨(conversation_history_spec.1 demoDb "s1" 50).1,
   conversation_history_spec.2 demoDb "s1" 50 5 "user" "new" "text" (by decide) (by decide)⟩
